import Mathlib

/-!
Verification of the image-to-PDF converter (`pdf_creator.py`).

The development shallowly embeds the three core routines of `PDFApp`:
`_sanitize_filename`, `images_to_pdf`, and `load_images_from_dir`.
Images, byte buffers and the filesystem are modelled as explicit values;
the PIL library calls (`Image.convert`, `Image.save(format="PDF", ...)`,
`Image.open`) are modelled by abstract pure operations that record exactly
the information the routines rely on (color mode, page sequence, stream
position, per-path decode results).
-/

namespace PdfCreator

/-- A decoded raster image: the PIL `Image` object, reduced to its color
`mode` string (e.g. `"RGB"`, `"L"`, `"P"`) and an abstract pixel `content`. -/
structure Image where
  mode : String
  content : Nat
  deriving Repr, DecidableEq

/-- PIL `img.convert(mode)`: returns a fresh image in the requested mode with
the same pixel content; the receiver is not modified (PIL `convert` returns a
new `Image` object). -/
def Image.convert (img : Image) (mode : String) : Image :=
  { mode := mode, content := img.content }

/-- Error kinds raised by the core routines.  `invalidInput` models the
`ValueError`s raised explicitly by the source; `decodeError` models the
exceptions propagated out of `PIL.Image.open`. -/
inductive Err where
  | invalidInput (msg : String)
  | decodeError (msg : String)
  deriving Repr, DecidableEq

/-- An `io.BytesIO` buffer holding an encoded PDF: the sequence of pages
written into it and the current stream position (`0` = start; after a write
the position sits at the end, abstracted here as the page count). -/
structure BytesBuffer where
  pdfPages : List Image
  pos : Nat
  deriving Repr, DecidableEq

/-- PIL `first.save(out, format="PDF", save_all=True, append_images=append)`:
encodes `first` as page 1 and each image of `append` as the following pages,
leaving the stream position at the end of the written data. -/
def pilSavePdf (first : Image) (append : List Image) : BytesBuffer :=
  { pdfPages := first :: append, pos := (first :: append).length }

/-- `out.seek(0)`: reset the stream position to the start. -/
def BytesBuffer.seek0 (b : BytesBuffer) : BytesBuffer :=
  { b with pos := 0 }

/-- The per-image normalization applied inside `images_to_pdf`:
`img if img.mode == "RGB" else img.convert("RGB")`. -/
def toRGB (img : Image) : Image :=
  if img.mode = "RGB" then img else img.convert "RGB"

/-- `PDFApp.images_to_pdf(images)`:
```python
if not images:
    raise ValueError("No images provided for PDF conversion.")
rgb_images = [(img if img.mode == "RGB" else img.convert("RGB")) for img in images]
out = io.BytesIO()
rgb_images[0].save(out, format="PDF", save_all=True, append_images=rgb_images[1:])
out.seek(0)
return out
```
`rgb_images` is never empty in the save branch, so `rgb_images[0]` is its
head and `rgb_images[1:]` its tail. -/
def images_to_pdf (images : List Image) : Except Err BytesBuffer :=
  match images with
  | [] => .error (.invalidInput "No images provided for PDF conversion.")
  | img0 :: rest =>
      let rgb_images := (img0 :: rest).map toRGB
      .ok ((pilSavePdf (rgb_images.headD (toRGB img0)) rgb_images.tail).seek0)

/-- Python whitespace test used by `str.strip()`, exact on the Latin-1
range (`\t \n \v \f \r`, `\x1c`–`\x1f`, space, `\x85`, `\xa0`); higher
Unicode space code points do not occur in any statement below. -/
def pyIsSpace (c : Char) : Bool :=
  let n := c.toNat
  (9 ≤ n && n ≤ 13) || (28 ≤ n && n ≤ 31) || n = 32 || n = 0x85 || n = 0xA0

/-- The Latin-1 word characters above ASCII, per the Unicode character
database used by Python's `re` module for `str` patterns: the feminine and
masculine ordinals and micro sign, the superscript and fraction digits, and
the Latin-1 letters (excluding `×` and `÷`). -/
def pyIsLatin1WordChar (c : Char) : Bool :=
  let n := c.toNat
  n = 0xAA || n = 0xB2 || n = 0xB3 || n = 0xB5 || n = 0xB9 || n = 0xBA ||
  n = 0xBC || n = 0xBD || n = 0xBE ||
  (0xC0 ≤ n && n ≤ 0xFF && !(n = 0xD7) && !(n = 0xF7))

/-- Python regex `\w` on `str`: Unicode alphanumerics plus underscore.
Exact on the ASCII and Latin-1 ranges; word characters above U+00FF are not
modelled (they exist, e.g. Cyrillic letters).  Every theorem below whose
hypotheses mention the kept class therefore restricts the relevant
characters to the range where this model is exact (ASCII for the C2
amendment, Latin-1 for C6); C10 does not depend on the gap, since neither
path separator is kept under either semantics. -/
def pyIsWordChar (c : Char) : Bool :=
  c = '_' || c.isAlphanum || pyIsLatin1WordChar c

/-- The character class kept by `re.sub(r"[^\w\-. ]+", "", name)`:
word characters, hyphen, period, and space. -/
def keepChar (c : Char) : Bool :=
  pyIsWordChar c || c = '-' || c = '.' || c = ' '

/-- `name.replace(" ", "_")`, per character. -/
def spaceToUnderscore (c : Char) : Char :=
  if c = ' ' then '_' else c

/-- Python `str.strip()`: drop leading and trailing whitespace. -/
def pyStripList (cs : List Char) : List Char :=
  ((cs.dropWhile pyIsSpace).reverse.dropWhile pyIsSpace).reverse

/-- `PDFApp._sanitize_filename(name)`:
```python
name = (name or "combined").strip()
name = re.sub(r"[^\w\-. ]+", "", name)  # remove unsafe chars
name = name.replace(" ", "_")
return f"{name or 'combined'}.pdf"
```
`name or "combined"` picks `"combined"` exactly when `name` is empty (the
falsy string); removing every run matched by `[^\w\-. ]+` is filtering by
`keepChar`. -/
def sanitize_filename (name : String) : String :=
  let n1 := if name = "" then "combined".toList else name.toList
  let n2 := pyStripList n1
  let n3 := n2.filter keepChar
  let n4 := n3.map spaceToUnderscore
  String.mk ((if n4 = [] then "combined".toList else n4) ++ ".pdf".toList)

/-- The character set `[A-Za-z0-9_.-]` named by the specification's
sanitizer guarantee (stated from the spec's words, for comparison with the
code's behavior). -/
def specSafeChar (c : Char) : Bool :=
  c.isAlphanum || c = '_' || c = '.' || c = '-'

/-- The filesystem, as seen by `load_images_from_dir`: `os.path.isdir`,
`os.listdir` (top-level entry names), and `PIL.Image.open` on a full path
(either a decoded image or the message of the raised decode exception). -/
structure FileSystem where
  isDir : String → Bool
  listdir : String → List String
  openImage : String → Except String Image

/-- Whether `post` is a prefix of `s`, on char lists. -/
def listStartsWith : List Char → List Char → Bool
  | _, [] => true
  | [], _ :: _ => false
  | a :: as, b :: bs => a = b && listStartsWith as bs

/-- Python `s.endswith(post)`: whether `post` is a suffix of `s`. -/
def listEndsWith (s post : List Char) : Bool :=
  listStartsWith s.reverse post.reverse

/-- `f.lower().endswith((".jpg", ".jpeg", ".png"))`.  `Char.toLower`
lowercases ASCII only, which agrees with Python on this predicate: no
non-ASCII character lowercases into the ASCII suffixes tested here. -/
def supportedName (f : String) : Bool :=
  let low := f.toList.map Char.toLower
  listEndsWith low ".jpg".toList || listEndsWith low ".jpeg".toList ||
    listEndsWith low ".png".toList

/-- `os.path.join(dir_path, f)` on POSIX, for a directory path without a
trailing separator. -/
def joinPath (dir_path f : String) : String :=
  dir_path ++ "/" ++ f

/-- Lexicographic `≤` on code-point sequences: Python's string order. -/
def strLeChars : List Char → List Char → Bool
  | [], _ => true
  | _ :: _, [] => false
  | a :: as, b :: bs => if a < b then true else if a = b then strLeChars as bs else false

/-- Python's `s1 <= s2` on strings: lexicographic on code points. -/
def pathLe (a b : String) : Prop :=
  strLeChars a.toList b.toList = true

instance : DecidableRel pathLe :=
  fun a b => instDecidableEqBool (strLeChars a.toList b.toList) true

/-- `sorted([os.path.join(dir_path, f) for f in os.listdir(dir_path) if
f.lower().endswith(supported_ext)])`: the matching entries, joined to full
paths and sorted lexicographically (Python's `sorted` on strings is a stable
ascending sort by the lexicographic order, as is `insertionSort`). -/
def matchingFiles (fs : FileSystem) (dir_path : String) : List String :=
  List.insertionSort pathLe
    (((fs.listdir dir_path).filter supportedName).map (joinPath dir_path))

/-- `PDFApp.load_images_from_dir(dir_path)`:
```python
if not os.path.isdir(dir_path):
    raise ValueError(f"Invalid directory: {dir_path}")
supported_ext = (".jpg", ".jpeg", ".png")
files = sorted([os.path.join(dir_path, f) for f in os.listdir(dir_path)
                if f.lower().endswith(supported_ext)])
if not files:
    raise ValueError(f"No supported images found in {dir_path}")
return [Image.open(f) for f in files]
```
A failure of `Image.open` aborts the whole call with a decode error. -/
def load_images_from_dir (fs : FileSystem) (dir_path : String) : Except Err (List Image) :=
  if fs.isDir dir_path then
    let files := matchingFiles fs dir_path
    if files = [] then
      .error (.invalidInput ("No supported images found in " ++ dir_path))
    else
      Except.mapError Err.decodeError (files.mapM fs.openImage)
  else
    .error (.invalidInput ("Invalid directory: " ++ dir_path))

/-- `PDFApp.__init__(title, max_images)`: the per-instance configuration.
`images_to_pdf` and `load_images_from_dir` are `@staticmethod`s and take no
instance, which the definitions above mirror by not taking a `PDFApp`. -/
structure PDFApp where
  title : String
  max_images : Nat

/-- A concrete filesystem used to instantiate the general theorems: one
directory `d` holding `b.png`, `a.jpg`, `c.txt`, of which the two image
files decode successfully. -/
def exampleFS : FileSystem where
  isDir := fun s => s = "d"
  listdir := fun _ => ["b.png", "a.jpg", "c.txt"]
  openImage := fun p =>
    if p = "d/a.jpg" then .ok ⟨"RGB", 1⟩
    else if p = "d/b.png" then .ok ⟨"L", 2⟩
    else .error "cannot identify image file"

/-! ### Helper lemmas -/

theorem strLeChars_total (a b : List Char) :
    strLeChars a b = true ∨ strLeChars b a = true := by
  induction a generalizing b with
  | nil => left; rfl
  | cons x xs ih =>
    cases b with
    | nil => right; rfl
    | cons y ys =>
      rcases lt_trichotomy x y with hxy | hxy | hxy
      · left; simp [strLeChars, hxy]
      · subst hxy
        rcases ih ys with h | h
        · left; simp [strLeChars, h]
        · right; simp [strLeChars, h]
      · right; simp [strLeChars, hxy]

theorem strLeChars_trans (a b c : List Char) (h1 : strLeChars a b = true)
    (h2 : strLeChars b c = true) : strLeChars a c = true := by
  induction a generalizing b c with
  | nil => rfl
  | cons x xs ih =>
    cases b with
    | nil => simp [strLeChars] at h1
    | cons y ys =>
      cases c with
      | nil => simp [strLeChars] at h2
      | cons z zs =>
        rcases lt_trichotomy x y with hxy | hxy | hxy
        · rcases lt_trichotomy y z with hyz | hyz | hyz
          · simp [strLeChars, lt_trans hxy hyz]
          · subst hyz; simp [strLeChars, hxy]
          · simp only [strLeChars, if_neg (lt_asymm hyz), if_neg (ne_of_gt hyz)] at h2
            exact absurd h2 (by simp)
        · subst hxy
          rcases lt_trichotomy x z with hyz | hyz | hyz
          · simp [strLeChars, hyz]
          · subst hyz
            simp only [strLeChars] at h1 h2 ⊢
            simp only [lt_self_iff_false, if_false, if_pos rfl] at h1 h2 ⊢
            exact ih ys zs h1 h2
          · simp only [strLeChars, if_neg (lt_asymm hyz), if_neg (ne_of_gt hyz)] at h2
            exact absurd h2 (by simp)
        · simp only [strLeChars, if_neg (lt_asymm hxy), if_neg (ne_of_gt hxy)] at h1
          exact absurd h1 (by simp)

instance : IsTotal String pathLe :=
  ⟨fun a b => strLeChars_total a.toList b.toList⟩

instance : IsTrans String pathLe :=
  ⟨fun a b c => strLeChars_trans a.toList b.toList c.toList⟩

theorem mem_pyStripList {c : Char} {cs : List Char} (h : c ∈ pyStripList cs) :
    c ∈ cs := by
  unfold pyStripList at h
  have h1 : c ∈ (cs.dropWhile pyIsSpace).reverse.dropWhile pyIsSpace :=
    List.mem_reverse.mp h
  have h2 : c ∈ (cs.dropWhile pyIsSpace).reverse :=
    (List.dropWhile_sublist pyIsSpace).subset h1
  exact (List.dropWhile_sublist pyIsSpace).subset (List.mem_reverse.mp h2)

theorem images_to_pdf_cons (img0 : Image) (rest : List Image) :
    images_to_pdf (img0 :: rest) =
      .ok { pdfPages := (img0 :: rest).map toRGB, pos := 0 } := rfl

theorem mapError_ne_invalidInput (res : Except String (List Image)) (msg : String) :
    Except.mapError Err.decodeError res ≠ .error (.invalidInput msg) := by
  cases res with
  | ok v => simp [Except.mapError]
  | error e => simp [Except.mapError]

theorem sanitize_filename_toList (s : String) (hs : s ≠ "") :
    (sanitize_filename s).toList =
      (if (((pyStripList s.toList).filter keepChar).map spaceToUnderscore) = []
        then "combined".toList
        else ((pyStripList s.toList).filter keepChar).map spaceToUnderscore) ++
      ".pdf".toList := by
  simp only [sanitize_filename, if_neg hs]
  rfl

/-- Every character of `sanitize_filename s` is a character of the literals
`"combined"`/`".pdf"`, or the image under `spaceToUnderscore` of a character
of `s` that the regex keeps. -/
theorem sanitize_filename_chars (s : String) (c : Char)
    (hc : c ∈ (sanitize_filename s).toList) :
    c ∈ "combined".toList ++ ".pdf".toList ∨
      ∃ c', c' ∈ s.toList ∧ keepChar c' = true ∧ c = spaceToUnderscore c' := by
  by_cases hs : s = ""
  · subst hs
    left
    have he : (sanitize_filename "").toList = "combined".toList ++ ".pdf".toList := by
      decide
    rw [he] at hc
    exact hc
  · rw [sanitize_filename_toList s hs] at hc
    rcases List.mem_append.mp hc with h | h
    · by_cases h4 : (((pyStripList s.toList).filter keepChar).map
        spaceToUnderscore) = []
      · rw [if_pos h4] at h
        left; exact List.mem_append.mpr (Or.inl h)
      · rw [if_neg h4] at h
        rcases List.mem_map.mp h with ⟨c', hc', hmap⟩
        rcases List.mem_filter.mp hc' with ⟨hmem, hkeep⟩
        exact Or.inr ⟨c', mem_pyStripList hmem, hkeep, hmap.symm⟩
    · left; exact List.mem_append.mpr (Or.inr h)

theorem pyIsLatin1WordChar_ge (c : Char) (h : pyIsLatin1WordChar c = true) :
    128 ≤ c.toNat := by
  simp only [pyIsLatin1WordChar, Bool.or_eq_true, decide_eq_true_eq,
    Bool.and_eq_true, Bool.not_eq_true', decide_eq_false_iff_not] at h
  omega

theorem sanitize_filename_append (s : String) :
    ∃ t, (sanitize_filename s).toList = t ++ ".pdf".toList := by
  by_cases hs : s = ""
  · subst hs
    exact ⟨"combined".toList, by decide⟩
  · rw [sanitize_filename_toList s hs]
    exact ⟨_, rfl⟩

theorem keepChar_ascii_safe (c : Char) (ha : c.toNat < 128)
    (hk : keepChar c = true) : specSafeChar (spaceToUnderscore c) = true := by
  simp only [keepChar, pyIsWordChar, Bool.or_eq_true, decide_eq_true_eq] at hk
  rcases hk with ((((h | h) | h) | h) | h) | h
  · subst h; decide
  · have hne : c ≠ ' ' := by
      intro he; subst he; exact absurd h (by decide)
    simp only [spaceToUnderscore, if_neg hne, specSafeChar, h, Bool.true_or]
  · exact absurd ha (by simpa using Nat.not_lt.mpr (pyIsLatin1WordChar_ge c h))
  · subst h; decide
  · subst h; decide
  · subst h; decide

/-! ### Claim theorems -/

/-- C1: for every non-empty list of images, `images_to_pdf` succeeds and
returns a buffer encoding a multi-page PDF with exactly `images.length`
pages, whose page order matches the input order: page `i + 1` is the
RGB-normalization of input image `i`. -/
theorem claim_c1 (images : List Image) (h : images ≠ []) :
    ∃ buf, images_to_pdf images = .ok buf ∧
      buf.pdfPages.length = images.length ∧
      ∀ (i : Nat) (hi : i < images.length),
        buf.pdfPages[i]? = some (toRGB (images.get ⟨i, hi⟩)) := by
  cases images with
  | nil => exact absurd rfl h
  | cons img0 rest =>
      refine ⟨_, images_to_pdf_cons img0 rest, ?_, ?_⟩
      · simp
      · intro i hi
        dsimp only
        rw [List.getElem?_map, List.getElem?_eq_getElem hi]
        rfl

theorem claim_c1_witness :
    (([⟨"L", 5⟩, ⟨"RGB", 7⟩] : List Image) ≠ []) ∧
    (∃ buf, images_to_pdf [⟨"L", 5⟩, ⟨"RGB", 7⟩] = .ok buf ∧
      buf.pdfPages.length = ([⟨"L", 5⟩, ⟨"RGB", 7⟩] : List Image).length ∧
      ∀ (i : Nat) (hi : i < ([⟨"L", 5⟩, ⟨"RGB", 7⟩] : List Image).length),
        buf.pdfPages[i]? =
          some (toRGB (([⟨"L", 5⟩, ⟨"RGB", 7⟩] : List Image).get ⟨i, hi⟩))) :=
  ⟨by decide, claim_c1 [⟨"L", 5⟩, ⟨"RGB", 7⟩] (by decide)⟩

/-- C2, counterexample: the claim that every output character of
`_sanitize_filename` lies in `[A-Za-z0-9_.-]` fails at the input `"é"`:
`é` is a word character for Python's Unicode-aware `\w`, so it is kept, and
the output `"é.pdf"` contains a character outside the claimed set. -/
theorem claim_c2_counterexample :
    ¬ ∀ (s : String), ∀ c ∈ (sanitize_filename s).toList, specSafeChar c = true :=
  fun h => absurd (h "é" 'é' (by decide)) (by decide)

/-- C2, amended: the output of `_sanitize_filename` is never empty, and for
inputs made of ASCII characters every output character lies in
`[A-Za-z0-9_.-]` (in general the regex also keeps non-ASCII Unicode word
characters, which fall outside that set). -/
theorem claim_c2_amended (s : String) :
    sanitize_filename s ≠ "" ∧
      ((∀ c ∈ s.toList, c.toNat < 128) →
        ∀ c ∈ (sanitize_filename s).toList, specSafeChar c = true) := by
  obtain ⟨t, ht⟩ := sanitize_filename_append s
  constructor
  · intro hemp
    rw [hemp] at ht
    have h0 : ([] : List Char) = t ++ ".pdf".toList := ht
    have h1 : ".pdf".toList = [] := (List.append_eq_nil.mp h0.symm).2
    exact absurd h1 (by decide)
  · intro hascii c hc
    rcases sanitize_filename_chars s c hc with h | ⟨c', hc', hkeep, hmap⟩
    · have hlit : ∀ x ∈ "combined".toList ++ ".pdf".toList, specSafeChar x = true := by
        decide
      exact hlit c h
    · rw [hmap]
      exact keepChar_ascii_safe c' (hascii c' hc') hkeep

theorem claim_c2_witness :
    (∀ c ∈ ("a b" : String).toList, c.toNat < 128) ∧
    sanitize_filename "a b" ≠ "" ∧
    (∀ c ∈ (sanitize_filename "a b").toList, specSafeChar c = true) :=
  ⟨by decide, (claim_c2_amended "a b").1, (claim_c2_amended "a b").2 (by decide)⟩

/-- C3: `images_to_pdf` fails with the invalid-input error (the
`ValueError` whose message is `"No images provided for PDF conversion."`,
the error the specification calls `InvalidInput` / "no images provided")
exactly when the input list is empty; no non-empty list takes that branch. -/
theorem claim_c3 (images : List Image) :
    ((∃ msg, images_to_pdf images = .error (.invalidInput msg)) ↔ images = []) ∧
    images_to_pdf [] = .error (.invalidInput "No images provided for PDF conversion.") := by
  refine ⟨⟨?_, ?_⟩, rfl⟩
  · rintro ⟨msg, hmsg⟩
    cases images with
    | nil => rfl
    | cons img0 rest =>
        rw [images_to_pdf_cons] at hmsg
        exact absurd hmsg (by simp)
  · intro h
    subst h
    exact ⟨"No images provided for PDF conversion.", rfl⟩

theorem claim_c3_witness :
    ((∃ msg, images_to_pdf ([] : List Image) = .error (.invalidInput msg)) ↔
      ([] : List Image) = []) ∧
    images_to_pdf [] = .error (.invalidInput "No images provided for PDF conversion.") :=
  claim_c3 []

/-- C4: `load_images_from_dir` fails with an invalid-input error exactly
when the path is not an existing directory (with a message naming the path)
or when no entry has a supported extension (with a message naming the
directory); otherwise any failure is a decode error, never invalid input. -/
theorem claim_c4 (fs : FileSystem) (d : String) :
    ((∃ msg, load_images_from_dir fs d = .error (.invalidInput msg)) ↔
      (fs.isDir d = false ∨ matchingFiles fs d = [])) ∧
    (fs.isDir d = false →
      load_images_from_dir fs d = .error (.invalidInput ("Invalid directory: " ++ d))) ∧
    (fs.isDir d = true → matchingFiles fs d = [] →
      load_images_from_dir fs d =
        .error (.invalidInput ("No supported images found in " ++ d))) := by
  cases hdir : fs.isDir d with
  | false =>
      have hload : load_images_from_dir fs d =
          .error (.invalidInput ("Invalid directory: " ++ d)) := by
        simp [load_images_from_dir, hdir]
      refine ⟨⟨fun _ => Or.inl rfl, fun _ => ⟨_, hload⟩⟩, fun _ => hload, ?_⟩
      intro h _
      exact absurd h (by decide)
  | true =>
      by_cases hm : matchingFiles fs d = []
      · have hload : load_images_from_dir fs d =
            .error (.invalidInput ("No supported images found in " ++ d)) := by
          simp [load_images_from_dir, hdir, hm]
        refine ⟨⟨fun _ => Or.inr hm, fun _ => ⟨_, hload⟩⟩, ?_, fun _ _ => hload⟩
        intro hf
        exact absurd hf (by decide)
      · have hload : load_images_from_dir fs d =
            Except.mapError Err.decodeError ((matchingFiles fs d).mapM fs.openImage) := by
          simp [load_images_from_dir, hdir, hm]
        refine ⟨⟨?_, ?_⟩, ?_, fun _ hmm => absurd hmm hm⟩
        · rintro ⟨msg, hmsg⟩
          rw [hload] at hmsg
          exact absurd hmsg (mapError_ne_invalidInput _ _)
        · rintro (hf | hmm)
          · exact absurd hf (by decide)
          · exact absurd hmm hm
        · intro hf
          exact absurd hf (by decide)

theorem claim_c4_witness :
    exampleFS.isDir "nope" = false ∧
    load_images_from_dir exampleFS "nope" =
      .error (.invalidInput ("Invalid directory: " ++ "nope")) :=
  ⟨by decide, (claim_c4 exampleFS "nope").2.1 (by decide)⟩

/-- C5: for every existing directory with at least one matching entry, all
of whose matching files decode, `load_images_from_dir` returns exactly the
decoded images of the matching full paths; the matching paths are the
top-level entries whose name ends case-insensitively in `.jpg`, `.jpeg`, or
`.png` (a permutation of them after joining) sorted lexicographically.
Instantiated in the witness at a directory `{b.png, a.jpg, c.txt}`, giving
the images of `a.jpg` then `b.png`, with `c.txt` excluded. -/
theorem claim_c5 (fs : FileSystem) (d : String) (imgs : List Image)
    (h1 : fs.isDir d = true) (h2 : matchingFiles fs d ≠ [])
    (h3 : (matchingFiles fs d).mapM fs.openImage = Except.ok imgs) :
    load_images_from_dir fs d = .ok imgs ∧
      (matchingFiles fs d).Sorted pathLe ∧
      (matchingFiles fs d).Perm
        (((fs.listdir d).filter supportedName).map (joinPath d)) := by
  refine ⟨?_, List.sorted_insertionSort pathLe _, List.perm_insertionSort pathLe _⟩
  have hload : load_images_from_dir fs d =
      Except.mapError Err.decodeError ((matchingFiles fs d).mapM fs.openImage) := by
    simp [load_images_from_dir, h1, h2]
  rw [hload, h3]
  rfl

theorem claim_c5_witness :
    (exampleFS.isDir "d" = true ∧ matchingFiles exampleFS "d" ≠ [] ∧
      (matchingFiles exampleFS "d").mapM exampleFS.openImage =
        Except.ok [⟨"RGB", 1⟩, ⟨"L", 2⟩]) ∧
    (load_images_from_dir exampleFS "d" = .ok [⟨"RGB", 1⟩, ⟨"L", 2⟩] ∧
      (matchingFiles exampleFS "d").Sorted pathLe ∧
      (matchingFiles exampleFS "d").Perm
        (((exampleFS.listdir "d").filter supportedName).map (joinPath "d"))) :=
  ⟨⟨rfl, by decide, rfl⟩,
    claim_c5 exampleFS "d" [⟨"RGB", 1⟩, ⟨"L", 2⟩] rfl (by decide) rfl⟩

/-- C6: `_sanitize_filename` yields exactly `"combined.pdf"` on the empty
string, on the whitespace-only string `"   "`, and on every string whose
characters are all unsafe (kept by neither the word class nor hyphen,
period, or space).  The all-unsafe strings are restricted to the Latin-1
range, on which `keepChar` is an exact model of the regex's kept class, so
every instance of the hypothesis is a genuinely all-unsafe input of the
program (outside that range the model does not decide membership in
Python's `\w`). -/
theorem claim_c6 :
    sanitize_filename "" = "combined.pdf" ∧
    sanitize_filename "   " = "combined.pdf" ∧
    ∀ s : String, (∀ c ∈ s.toList, c.toNat < 0x100 ∧ keepChar c = false) →
      sanitize_filename s = "combined.pdf" := by
  refine ⟨by decide, by decide, fun s huns => ?_⟩
  by_cases hs : s = ""
  · subst hs; decide
  · have hfil : (pyStripList s.toList).filter keepChar = [] := by
      rw [List.filter_eq_nil_iff]
      intro a ha
      simp [(huns a (mem_pyStripList ha)).2]
    have hlist : (sanitize_filename s).toList = "combined".toList ++ ".pdf".toList := by
      rw [sanitize_filename_toList s hs, hfil]
      simp
    have hlit : "combined".toList ++ ".pdf".toList = "combined.pdf".toList := by decide
    have : (sanitize_filename s).toList = "combined.pdf".toList := hlist.trans hlit
    exact String.toList_inj.mp this

theorem claim_c6_witness :
    (∀ c ∈ ("@!#" : String).toList, c.toNat < 0x100 ∧ keepChar c = false) ∧
    sanitize_filename "@!#" = "combined.pdf" :=
  ⟨by decide, claim_c6.2.2 "@!#" (by decide)⟩

/-- C7: `_sanitize_filename "My Report!!"` yields exactly `"My_Report.pdf"`:
the exclamation marks are stripped, the interior space becomes an
underscore, and the extension is appended. -/
theorem claim_c7 : sanitize_filename "My Report!!" = "My_Report.pdf" := by
  decide

/-- C8: the configured `max_images` is never consulted: both core routines
are independent of the `PDFApp` instance, and even when the image count or
the matching-file count exceeds `app.max_images`, `images_to_pdf` succeeds
and `load_images_from_dir` raises no invalid-input error. -/
theorem claim_c8 (app : PDFApp) (images : List Image) (fs : FileSystem) (d : String)
    (h : images ≠ []) (hover : app.max_images < images.length) :
    (∃ buf, images_to_pdf images = .ok buf) ∧
    (fs.isDir d = true → app.max_images < (matchingFiles fs d).length →
      ¬ ∃ msg, load_images_from_dir fs d = .error (.invalidInput msg)) := by
  constructor
  · cases images with
    | nil => exact absurd rfl h
    | cons a l => exact ⟨_, images_to_pdf_cons a l⟩
  · intro hdir hcount hex
    rcases hex with ⟨msg, hmsg⟩
    have hm : matchingFiles fs d ≠ [] := by
      intro he
      rw [he] at hcount
      exact absurd hcount (by simp)
    have hload : load_images_from_dir fs d =
        Except.mapError Err.decodeError ((matchingFiles fs d).mapM fs.openImage) := by
      simp [load_images_from_dir, hdir, hm]
    rw [hload] at hmsg
    exact mapError_ne_invalidInput _ _ hmsg

theorem claim_c8_witness :
    (([⟨"RGB", 1⟩, ⟨"L", 2⟩] : List Image) ≠ [] ∧
      (PDFApp.mk "Image to PDF Converter" 1).max_images <
        ([⟨"RGB", 1⟩, ⟨"L", 2⟩] : List Image).length) ∧
    ((∃ buf, images_to_pdf [⟨"RGB", 1⟩, ⟨"L", 2⟩] = .ok buf) ∧
      (exampleFS.isDir "d" = true →
        (PDFApp.mk "Image to PDF Converter" 1).max_images <
          (matchingFiles exampleFS "d").length →
        ¬ ∃ msg, load_images_from_dir exampleFS "d" = .error (.invalidInput msg))) :=
  ⟨⟨by decide, by decide⟩,
    claim_c8 (PDFApp.mk "Image to PDF Converter" 1) [⟨"RGB", 1⟩, ⟨"L", 2⟩]
      exampleFS "d" (by decide) (by decide)⟩

/-- C9: `images_to_pdf` builds its page list without modifying the inputs:
an input image already in RGB mode appears as its own page unchanged, and an
input in any other mode is replaced on its page by the freshly converted RGB
copy (a distinct image value), the conversion being PIL's `convert`, which
returns a new object and leaves the original untouched (the embedding's
`Image.convert` is pure, so the input list is unchanged by the call). -/
theorem claim_c9 (images : List Image) (h : images ≠ []) :
    ∃ buf, images_to_pdf images = .ok buf ∧
      ∀ (i : Nat) (hi : i < images.length),
        ((images.get ⟨i, hi⟩).mode = "RGB" →
          buf.pdfPages[i]? = some (images.get ⟨i, hi⟩)) ∧
        ((images.get ⟨i, hi⟩).mode ≠ "RGB" →
          buf.pdfPages[i]? = some ((images.get ⟨i, hi⟩).convert "RGB") ∧
          buf.pdfPages[i]? ≠ some (images.get ⟨i, hi⟩)) := by
  cases images with
  | nil => exact absurd rfl h
  | cons img0 rest =>
      refine ⟨_, images_to_pdf_cons img0 rest, fun i hi => ?_⟩
      have hpage : ({ pdfPages := ((img0 :: rest).map toRGB), pos := 0 } :
          BytesBuffer).pdfPages[i]? = some (toRGB ((img0 :: rest).get ⟨i, hi⟩)) := by
        dsimp only
        rw [List.getElem?_map, List.getElem?_eq_getElem hi]
        rfl
      rw [hpage]
      constructor
      · intro hmode
        rw [toRGB, if_pos hmode]
      · intro hmode
        refine ⟨by rw [toRGB, if_neg hmode], ?_⟩
        intro heq
        have h2 : toRGB ((img0 :: rest).get ⟨i, hi⟩) = (img0 :: rest).get ⟨i, hi⟩ :=
          Option.some.inj heq
        rw [toRGB, if_neg hmode] at h2
        have h3 := congrArg Image.mode h2
        exact hmode h3.symm

theorem claim_c9_witness :
    (([⟨"L", 3⟩, ⟨"RGB", 4⟩] : List Image) ≠ []) ∧
    (∃ buf, images_to_pdf [⟨"L", 3⟩, ⟨"RGB", 4⟩] = .ok buf ∧
      ∀ (i : Nat) (hi : i < ([⟨"L", 3⟩, ⟨"RGB", 4⟩] : List Image).length),
        ((([⟨"L", 3⟩, ⟨"RGB", 4⟩] : List Image).get ⟨i, hi⟩).mode = "RGB" →
          buf.pdfPages[i]? = some (([⟨"L", 3⟩, ⟨"RGB", 4⟩] : List Image).get ⟨i, hi⟩)) ∧
        ((([⟨"L", 3⟩, ⟨"RGB", 4⟩] : List Image).get ⟨i, hi⟩).mode ≠ "RGB" →
          buf.pdfPages[i]? =
            some ((([⟨"L", 3⟩, ⟨"RGB", 4⟩] : List Image).get ⟨i, hi⟩).convert "RGB") ∧
          buf.pdfPages[i]? ≠ some (([⟨"L", 3⟩, ⟨"RGB", 4⟩] : List Image).get ⟨i, hi⟩))) :=
  ⟨by decide, claim_c9 [⟨"L", 3⟩, ⟨"RGB", 4⟩] (by decide)⟩

/-- C10: for every input, the name returned by `_sanitize_filename` contains
no path separator (`/` or `\`) and ends with the suffix `".pdf"`, so it can
never denote a path outside the download directory. -/
theorem claim_c10 (s : String) :
    '/' ∉ (sanitize_filename s).toList ∧ '\\' ∉ (sanitize_filename s).toList ∧
    ∃ t : List Char, (sanitize_filename s).toList = t ++ ".pdf".toList := by
  refine ⟨?_, ?_, sanitize_filename_append s⟩
  · intro hc
    rcases sanitize_filename_chars s '/' hc with h | ⟨c', _, hkeep, hmap⟩
    · exact absurd h (by decide)
    · by_cases he : c' = ' '
      · subst he
        exact absurd hmap (by decide)
      · simp only [spaceToUnderscore, if_neg he] at hmap
        rw [← hmap] at hkeep
        exact absurd hkeep (by decide)
  · intro hc
    rcases sanitize_filename_chars s '\\' hc with h | ⟨c', _, hkeep, hmap⟩
    · exact absurd h (by decide)
    · by_cases he : c' = ' '
      · subst he
        exact absurd hmap (by decide)
      · simp only [spaceToUnderscore, if_neg he] at hmap
        rw [← hmap] at hkeep
        exact absurd hkeep (by decide)

end PdfCreator
